import Mathlib

/-!
Verification of the dictionary-building core of the
multilingual-pronunciation-dictionary repository.

The embedding translates the TypeScript sources
`src/build/dictionary/create-dictionary.ts` (dictionary aggregation,
metadata synthesis, character statistics) and the normalization module
(`normalizeWordPronunciation`, `normalizeWord`, `normalizePronunciation`,
`getAlternatives`).

Modelling decisions, each noted again at the definition it concerns:
- JavaScript strings are Lean `String`s; spreading a string (`[...s]`)
  yields its code points, modelled as `String.data : List Char`.
- JavaScript `Map` / `Set` preserve insertion order; they are modelled as
  association lists / lists with first-occurrence deduplication.
- `Array.prototype.sort` and lodash `orderBy` are stable sorts driven by a
  comparator; they are modelled as a stable insertion sort driven by a
  boolean `le` relation.
- The issue logger (`log`) is a side channel; functions that log return
  their issues in an explicit list, in emission order.
- Externals that are not part of this repository are parameters:
  `String.prototype.toLocaleLowerCase` (a `lower : String → String`
  argument), the `nonEssentialIpaSymbols` set from `lookups/ipa-symbols`
  (a `nonEssential : Char → Bool` argument), the `Intl.Collator`
  comparators (boolean `le` arguments) and the i18n `getName` registry
  (a `getName : String → Option String` argument).
-/

/-- A raw or normalized record, per the data model: the fields of the
`WordPronunciation` interface of `pronunciation-source.ts` (declared outside
the staged sources; fields per the data model section of the spec). -/
structure WordPronunciation where
  sourceEdition : String
  language : String
  word : String
  pronunciation : String
deriving DecidableEq, Repr

/-- Per-language configuration, per the `Metadata` interface of
`create-dictionary.ts`. The normalizer iterates the replacement tables with
`for (const [pattern, newValue] of ...)`, i.e. as an ordered sequence of
(pattern, replacement) pairs, which is also how the spec describes them;
they are modelled as ordered pair lists. Graphemes and phonemes are lists of
single code points. -/
structure Metadata where
  language : String
  description : String
  graphemes : List Char
  phonemes : List Char
  graphemeReplacements : List (String × String)
  phonemeReplacements : List (String × String)
deriving DecidableEq, Repr

/-- The `Frequencies` interface of `create-dictionary.ts`: character to
`count / totalCount`, as exact rationals. -/
structure Frequencies where
  graphemeFrequencies : List (Char × ℚ)
  phonemeFrequencies : List (Char × ℚ)
deriving DecidableEq, Repr

/-- The final output, per the `Dictionary` interface of
`create-dictionary.ts`: the `data` map in its insertion (= sorted) order. -/
structure Dictionary where
  data : List (String × List String)
  metadata : Metadata
deriving DecidableEq, Repr

/-- The structured issues of `dictionary-creation-issues.ts`, with the
fields each constructor receives at its construction site. -/
inductive Issue where
  | missingMetadata (metadata : Metadata) (frequencies : Frequencies)
  | invalidGraphemeInWord (wordPronunciation : WordPronunciation)
      (partialWord : String) (grapheme : Char) (metadata : Metadata)
  | invalidPhonemeInPronunciation (wordPronunciation : WordPronunciation)
      (phoneme : Char) (metadata : Metadata)
deriving DecidableEq, Repr

/-- Stable insertion of `a` into `l`: `a` goes after every element `b` with
`le b a`. Folding this over a list models the stable comparator sorts of the
source (`Array.prototype.sort`, lodash `orderBy`). -/
def insertOrd (le : α → α → Bool) (a : α) : List α → List α
  | [] => [a]
  | b :: bs => if le b a then b :: insertOrd le a bs else a :: b :: bs

/-- Stable sort by the boolean relation `le`: elements are inserted in
input order, each after its ties, which is the stability contract of
`Array.prototype.sort` and lodash `orderBy`. -/
def jsSortBy (le : α → α → Bool) (l : List α) : List α :=
  l.foldl (fun acc a => insertOrd le a acc) []

/-- A JavaScript `Set` built by inserting the elements of `l` in order:
first occurrences, in first-occurrence order. -/
def jsSetList [BEq α] (l : List α) : List α :=
  l.foldl (fun acc a => if acc.contains a then acc else acc ++ [a]) []

/-- One step of the `DefaultMap`-backed counting loop of
`getCharacterStats`: bump the count of `c`, keeping insertion order, or
append `(c, 1)` when `c` is new. -/
def bumpCount : List (Char × Nat) → Char → List (Char × Nat)
  | [], c => [(c, 1)]
  | (k, n) :: rest, c =>
      if k = c then (k, n + 1) :: rest else (k, n) :: bumpCount rest c

/-- The result type of `getCharacterStats`. -/
structure CharacterStats where
  characters : List Char
  frequencies : List (Char × ℚ)
deriving DecidableEq, Repr

/-- `getCharacterStats` of `create-dictionary.ts`: count each character,
sort the (character, count) pairs by descending count with lodash
`orderBy` (stable, so ties keep first-encountered order), and return the
characters plus `count / totalCount`. On empty input every loop is empty,
so no `count / 0` is ever formed: both result lists are empty. -/
def getCharacterStats (characters : List Char) : CharacterStats :=
  let characterCounts := characters.foldl bumpCount []
  let totalCharacterCount := characters.length
  let sortedCharacterCounts :=
    jsSortBy (fun a b : Char × Nat => b.2 ≤ a.2) characterCounts
  { characters := sortedCharacterCounts.map (fun p => p.1)
    frequencies := sortedCharacterCounts.map
      (fun p => (p.1, (p.2 : ℚ) / (totalCharacterCount : ℚ))) }

/-- The `unsupportedLanguages` constant of `create-dictionary.ts`: Latin
(dead language) and Japanese, Chinese, Korean (too many graphemes). -/
def unsupportedLanguages : List String := ["la", "ja", "zh", "ko"]

/-- The `knownMetadataLookup` map of `create-dictionary.ts`. In the source
it is created as an empty `Map` and never populated, so every language is
resolved by synthesis. -/
def knownMetadataLookup : List (String × Metadata) := []

/-- `generateDummyMetadataAndFrequencies` of `create-dictionary.ts`.
Grapheme statistics come from the characters of the `Set` of the raw words
(first-occurrence deduplication, no case folding in this source); phoneme
statistics come from the characters of every raw pronunciation in input
order, unfiltered. `getName` stands for the external i18n language-name
registry; the source falls back to the raw language code. -/
def generateDummyMetadataAndFrequencies (getName : String → Option String)
    (language : String) (wordPronunciations : List WordPronunciation) :
    Metadata × Frequencies :=
  let description := (getName language).getD language
  let graphemeStats := getCharacterStats
    ((jsSetList (wordPronunciations.map (fun wp => wp.word))).flatMap
      String.data)
  let phonemeStats := getCharacterStats
    (wordPronunciations.flatMap (fun wp => wp.pronunciation.data))
  ({ language := language
     description := description
     graphemes := graphemeStats.characters
     phonemes := phonemeStats.characters
     graphemeReplacements := []
     phonemeReplacements := [] },
   { graphemeFrequencies := graphemeStats.frequencies
     phonemeFrequencies := phonemeStats.frequencies })

/-- `getMetadata` of `create-dictionary.ts`: curated metadata when the
lookup has the language (it never does, the lookup being empty), otherwise
synthesized metadata plus a logged `MissingMetadataIssue`. The logged
issues are the second component. -/
def getMetadata (getName : String → Option String) (language : String)
    (wordPronunciations : List WordPronunciation) : Metadata × List Issue :=
  match knownMetadataLookup.lookup language with
  | some knownMetadata => (knownMetadata, [])
  | none =>
      let mf := generateDummyMetadataAndFrequencies getName language
        wordPronunciations
      (mf.1, [Issue.missingMetadata mf.1 mf.2])

/-- One step of the `DefaultMap<string, string[]>` filling loop of
`createDictionary`: push `pronunciation` onto the entry of `word`, keeping
key insertion order, creating a fresh entry when the key is new. -/
def pushPronunciation (m : List (String × List String)) (word : String)
    (pronunciation : String) : List (String × List String) :=
  match m with
  | [] => [(word, [pronunciation])]
  | (k, ps) :: rest =>
      if k = word then (k, ps ++ [pronunciation]) :: rest
      else (k, ps) :: pushPronunciation rest word pronunciation

/-- `createDictionary` of `create-dictionary.ts`. Unsupported languages
yield `null` at once (no metadata resolution, no issue). Otherwise the raw
pairs are grouped by their raw word, the words are sorted with the
language collator (`languageLe`), each word's pronunciation list with the
default-locale collator (`englishLe`), and the resulting map is paired
with the resolved metadata. The source inserts the raw records directly:
it never invokes the normalizer. The logged issues are the second
component. -/
def createDictionary (getName : String → Option String)
    (languageLe englishLe : String → String → Bool) (language : String)
    (wordPronunciations : List WordPronunciation) :
    Option Dictionary × List Issue :=
  if unsupportedLanguages.contains language then (none, [])
  else
    let mi := getMetadata getName language wordPronunciations
    let pronunciationsByWord := wordPronunciations.foldl
      (fun m wp => pushPronunciation m wp.word wp.pronunciation) []
    let sortedWords := jsSortBy languageLe
      (pronunciationsByWord.map (fun e => e.1))
    let data := sortedWords.map (fun word =>
      (word, jsSortBy englishLe
        ((pronunciationsByWord.lookup word).getD [])))
    (some { data := data, metadata := mi.1 }, mi.2)

/-- The recursion of `jsReplaceAll` for a nonempty pattern: scan left to
right, and at each position where the pattern is a prefix emit the
replacement and continue after the matched text (the replacement itself is
not rescanned), as `String.prototype.replaceAll` does with a string
pattern. -/
def jsReplaceAllGo (pat rep : List Char) : List Char → List Char
  | [] => []
  | c :: rest =>
      if pat.isPrefixOf (c :: rest) then
        rep ++ jsReplaceAllGo pat rep (rest.drop (pat.length - 1))
      else c :: jsReplaceAllGo pat rep rest
termination_by l => l.length
decreasing_by
  · simp only [List.length_drop, List.length_cons]
    omega
  · simp only [List.length_cons]
    omega

/-- `String.prototype.replaceAll` with a string pattern (the replacement
tables hold plain strings). The empty pattern matches at every position,
including the end, as in JavaScript. -/
def jsReplaceAll (pat rep s : String) : String :=
  if pat.data = [] then
    String.mk (rep.data ++ s.data.flatMap (fun c => c :: rep.data))
  else String.mk (jsReplaceAllGo pat.data rep.data s.data)

/-- The replacement loop shared by `normalizeWord` and
`normalizePronunciation`: each (pattern, replacement) rule in declared
order, each applied globally to the output of the previous ones. -/
def applyReplacements (rules : List (String × String)) (s : String) :
    String :=
  rules.foldl (fun acc rule => jsReplaceAll rule.1 rule.2 acc) s

/-- The characters that the dot of the JavaScript pattern of
`getAlternatives` cannot match without the dotAll flag: line
terminators. -/
def jsDotExcluded (c : Char) : Bool :=
  c = Char.ofNat 10 ∨ c = Char.ofNat 13 ∨ c = Char.ofNat 0x2028 ∨
    c = Char.ofNat 0x2029

/-- One left-to-right pass of `replaceAll` with the non-greedy pattern
of `getAlternatives` (an opening parenthesis, a lazy dot-star group, a
closing parenthesis). With no span pending (`pending = none`), an opening
parenthesis opens a span and every other character is literal. With a span
pending, the first closing parenthesis commits it (the group is the
reversed buffer; `keep` selects the replacement by the group or by the
empty string), while a line terminator or the end of input abandons it and
re-emits the buffered text literally; no match can start inside an
abandoned buffer, because any closing parenthesis there would have
committed the span, and the lazy group cannot cross a line terminator. -/
def spanScan (keep : Bool) : Option (List Char) → List Char → List Char
  | none, [] => []
  | some buf, [] => '(' :: buf.reverse
  | none, c :: rest =>
      if c = '(' then spanScan keep (some []) rest
      else c :: spanScan keep none rest
  | some buf, c :: rest =>
      if c = ')' then
        (if keep then buf.reverse else []) ++ spanScan keep none rest
      else if jsDotExcluded c then
        ('(' :: buf.reverse) ++ c :: spanScan keep none rest
      else spanScan keep (some (c :: buf)) rest

/-- The `minimalVersion` of `getAlternatives`: every non-greedy
parenthesized span replaced by the empty string. -/
def minimalVersion (s : String) : String :=
  String.mk (spanScan false none s.data)

/-- The `maximalVersion` of `getAlternatives`: every non-greedy
parenthesized span replaced by its group content. -/
def maximalVersion (s : String) : String :=
  String.mk (spanScan true none s.data)

/-- `getAlternatives` of the normalization module: the minimal and maximal
variants, collapsed to one candidate when they coincide. -/
def getAlternatives (s : String) : List String :=
  if minimalVersion s = maximalVersion s then [minimalVersion s]
  else [minimalVersion s, maximalVersion s]

/-- The delimiter-stripping step of `normalizePronunciation`: one layer of
surrounding slashes or square brackets, removed with
`substring(1, length - 1)`. On a one-character string that is its own
opening and closing delimiter, JavaScript `substring` swaps its
arguments (`substring(1, 0) = substring(0, 1)`) and the string is kept
whole. -/
def stripDelimiters (s : String) : String :=
  let l := s.data
  if (l.head? = some '/' ∧ l.getLast? = some '/') ∨
      (l.head? = some '[' ∧ l.getLast? = some ']') then
    if l.length ≤ 1 then s else String.mk ((l.drop 1).dropLast)
  else s

/-- `normalizeWord` of the normalization module: lowercase with the
language-aware `lower` (standing for `toLocaleLowerCase(metadata.language)`),
apply the grapheme replacements, then fail on the first character absent
from `metadata.graphemes`, logging one `InvalidGraphemeInWordIssue` that
carries the raw pair, the partially normalized word, that character and
the metadata. -/
def normalizeWord (lower : String → String) (wp : WordPronunciation)
    (metadata : Metadata) : Option String × List Issue :=
  let normalized := applyReplacements metadata.graphemeReplacements
    (lower wp.word)
  match normalized.data.find? (fun g => !(metadata.graphemes.contains g)) with
  | some invalidGrapheme =>
      (none,
        [Issue.invalidGraphemeInWord wp normalized invalidGrapheme metadata])
  | none => (some normalized, [])

/-- The candidate pipeline of `normalizePronunciation`, before validation:
strip one delimiter layer, drop the non-essential symbols (`nonEssential`
standing for membership in `nonEssentialIpaSymbols`), apply the phoneme
replacements, expand alternatives. -/
def pronunciationCandidates (nonEssential : Char → Bool)
    (wp : WordPronunciation) (metadata : Metadata) : List String :=
  let stripped := stripDelimiters wp.pronunciation
  let filtered := String.mk
    (stripped.data.filter (fun c => !nonEssential c))
  let replaced := applyReplacements metadata.phonemeReplacements filtered
  getAlternatives replaced

/-- The validity scan of `normalizePronunciation` over one candidate: the
first character absent from `metadata.phonemes`, if any. -/
def firstInvalidPhoneme (metadata : Metadata) (s : String) : Option Char :=
  s.data.find? (fun p => !(metadata.phonemes.contains p))

/-- The validation filter of `normalizePronunciation`: keep the candidates
with no invalid phoneme, in order, and log one
`InvalidPhonemeInPronunciationIssue` for each rejected candidate, naming
its first invalid phoneme. -/
def validateCandidates (wp : WordPronunciation) (metadata : Metadata)
    (alternatives : List String) : List String × List Issue :=
  alternatives.foldl (fun acc alternative =>
    match firstInvalidPhoneme metadata alternative with
    | some invalidPhoneme =>
        (acc.1,
          acc.2 ++ [Issue.invalidPhonemeInPronunciation wp invalidPhoneme
            metadata])
    | none => (acc.1 ++ [alternative], acc.2)) ([], [])

/-- `normalizePronunciation` of the normalization module. -/
def normalizePronunciation (nonEssential : Char → Bool)
    (wp : WordPronunciation) (metadata : Metadata) :
    List String × List Issue :=
  validateCandidates wp metadata
    (pronunciationCandidates nonEssential wp metadata)

/-- `normalizeWordPronunciation` of the normalization module: the empty
list when the word is rejected, else one normalized record per surviving
pronunciation candidate, sharing the normalized word and the original
source edition and language. -/
def normalizeWordPronunciation (lower : String → String)
    (nonEssential : Char → Bool) (wp : WordPronunciation)
    (metadata : Metadata) : List WordPronunciation × List Issue :=
  match normalizeWord lower wp metadata with
  | (none, issues) => ([], issues)
  | (some word, issues) =>
      let ps := normalizePronunciation nonEssential wp metadata
      (ps.1.map (fun pronunciation =>
        { sourceEdition := wp.sourceEdition
          language := wp.language
          word := word
          pronunciation := pronunciation }), issues ++ ps.2)

/-- A concrete collator for instantiating the comparator parameters of
`createDictionary` at closed inputs: code-point order, which is what both
`Intl.Collator` comparators degenerate to on the ASCII-distinct strings of
the concrete inputs below. -/
def charListLe : List Char → List Char → Bool
  | [], _ => true
  | _ :: _, [] => false
  | a :: as, b :: bs =>
      if a.toNat < b.toNat then true
      else if b.toNat < a.toNat then false
      else charListLe as bs

/-- Code-point order on strings (see `charListLe`). -/
def stringCodePointLe (a b : String) : Bool := charListLe a.data b.data

/-- Modelled from the spec: the grapheme character stream that the
metadata-synthesis sentence of the spec describes, where the words are
case-folded with language-aware lowercasing before deduplication. Used
only to compare the source behaviour with the claimed one. -/
def claimedGraphemeSource (lower : String → String)
    (wordPronunciations : List WordPronunciation) : List Char :=
  (jsSetList (wordPronunciations.map (fun wp => lower wp.word))).flatMap
    String.data

/-- Modelled from the spec: membership in the reference phonetic-symbol
inventory, to the extent the claims need it. Per the spec, unrecognized
symbols such as stress marks or source-specific punctuation are not
phonetic symbols; in particular the slash and square-bracket transcription
delimiters are outside the inventory. Every other character is treated as
potentially in the inventory, which only makes the refutation below
harder. -/
def referencePhoneticInventoryContains (c : Char) : Bool :=
  !(c = '/' ∨ c = '[' ∨ c = ']')

theorem mem_insertOrd (le : α → α → Bool) (a x : α) (l : List α) :
    x ∈ insertOrd le a l ↔ x = a ∨ x ∈ l := by
  induction l with
  | nil => simp [insertOrd]
  | cons b bs ih =>
      by_cases h : le b a = true
      · simp [insertOrd, h, ih]
        tauto
      · simp [insertOrd, h]

theorem mem_jsSortBy_aux (le : α → α → Bool) (x : α) (l acc : List α) :
    x ∈ l.foldl (fun acc a => insertOrd le a acc) acc ↔
      x ∈ acc ∨ x ∈ l := by
  induction l generalizing acc with
  | nil => simp
  | cons b bs ih =>
      simp only [List.foldl_cons, ih, mem_insertOrd, List.mem_cons]
      tauto

theorem mem_jsSortBy (le : α → α → Bool) (x : α) (l : List α) :
    x ∈ jsSortBy le l ↔ x ∈ l := by
  simp [jsSortBy, mem_jsSortBy_aux]

theorem mem_keys_bumpCount (m : List (Char × Nat)) (c x : Char) :
    x ∈ (bumpCount m c).map Prod.fst ↔ x = c ∨ x ∈ m.map Prod.fst := by
  induction m with
  | nil => simp [bumpCount]
  | cons p rest ih =>
      obtain ⟨k, n⟩ := p
      by_cases h : k = c
      · subst h
        simp [bumpCount]
      · simp [bumpCount, h, ih]
        tauto

theorem mem_keys_foldl_bumpCount (l : List Char) (m : List (Char × Nat))
    (x : Char) :
    x ∈ (l.foldl bumpCount m).map Prod.fst ↔
      x ∈ m.map Prod.fst ∨ x ∈ l := by
  induction l generalizing m with
  | nil => simp
  | cons c cs ih =>
      simp only [List.foldl_cons, ih, mem_keys_bumpCount, List.mem_cons]
      tauto

theorem mem_getCharacterStats (chars : List Char) (c : Char) :
    c ∈ (getCharacterStats chars).characters ↔ c ∈ chars := by
  show c ∈ (jsSortBy _ (chars.foldl bumpCount [])).map Prod.fst ↔ c ∈ chars
  rw [List.mem_map]
  constructor
  · rintro ⟨p, hp, rfl⟩
    have : p.1 ∈ (jsSortBy (fun a b : Char × Nat => b.2 ≤ a.2)
        (chars.foldl bumpCount [])).map Prod.fst := List.mem_map_of_mem _ hp
    rw [List.mem_map] at this
    obtain ⟨q, hq, hq1⟩ := this
    have := (mem_keys_foldl_bumpCount chars [] p.1).mp
      (by
        rw [List.mem_map]
        exact ⟨q, (mem_jsSortBy _ q _).mp hq, hq1⟩)
    simpa using this
  · intro hc
    have : c ∈ ((chars.foldl bumpCount []).map Prod.fst) :=
      (mem_keys_foldl_bumpCount chars [] c).mpr (Or.inr hc)
    rw [List.mem_map] at this
    obtain ⟨p, hp, hp1⟩ := this
    exact ⟨p, (mem_jsSortBy _ p _).mpr hp, hp1⟩

theorem mem_jsSetList_aux [BEq α] (l acc : List α) (x : α) :
    x ∈ l.foldl
        (fun acc a => if acc.contains a then acc else acc ++ [a]) acc →
      x ∈ acc ∨ x ∈ l := by
  induction l generalizing acc with
  | nil => simp
  | cons b bs ih =>
      intro h
      simp only [List.foldl_cons] at h
      by_cases hb : acc.contains b = true
      · rw [if_pos hb] at h
        rcases ih acc h with h1 | h1
        · exact Or.inl h1
        · exact Or.inr (List.mem_cons_of_mem _ h1)
      · rw [if_neg hb] at h
        rcases ih (acc ++ [b]) h with h1 | h1
        · rcases List.mem_append.mp h1 with h2 | h2
          · exact Or.inl h2
          · simp at h2
            subst h2
            exact Or.inr (List.mem_cons_self _ _)
        · exact Or.inr (List.mem_cons_of_mem _ h1)

theorem mem_jsSetList_aux2 [BEq α] [LawfulBEq α] (l acc : List α) (x : α) :
    x ∈ acc ∨ x ∈ l →
      x ∈ l.foldl
        (fun acc a => if acc.contains a then acc else acc ++ [a]) acc := by
  induction l generalizing acc with
  | nil => simp only [List.foldl_nil, List.not_mem_nil, or_false, imp_self]
  | cons b bs ih =>
      intro h
      simp only [List.foldl_cons]
      by_cases hb : acc.contains b = true
      · rw [if_pos hb]
        apply ih
        rcases h with h1 | h1
        · exact Or.inl h1
        · rcases List.mem_cons.mp h1 with h2 | h2
          · subst h2
            exact Or.inl (by simpa [List.contains, List.elem_iff] using hb)
          · exact Or.inr h2
      · rw [if_neg hb]
        apply ih
        rcases h with h1 | h1
        · exact Or.inl (List.mem_append.mpr (Or.inl h1))
        · rcases List.mem_cons.mp h1 with h2 | h2
          · subst h2
            exact Or.inl (List.mem_append.mpr (Or.inr (by simp)))
          · exact Or.inr h2

theorem mem_jsSetList [BEq α] [LawfulBEq α] (l : List α) (x : α) :
    x ∈ jsSetList l ↔ x ∈ l := by
  constructor
  · intro h
    simpa using mem_jsSetList_aux l [] x h
  · intro h
    exact mem_jsSetList_aux2 l [] x (Or.inr h)

theorem jsSetList_concat_self [BEq α] [LawfulBEq α] (l : List α) (a : α)
    (h : a ∈ l) : jsSetList (l ++ [a]) = jsSetList l := by
  have h1 : a ∈ jsSetList l := (mem_jsSetList l a).mpr h
  have h2 : (jsSetList l).contains a = true := by
    simpa [List.contains, List.elem_iff] using h1
  rw [jsSetList, List.foldl_append]
  simp only [List.foldl_cons, List.foldl_nil]
  rw [show List.foldl
      (fun acc a => if acc.contains a then acc else acc ++ [a]) [] l =
      jsSetList l from rfl]
  simp [h2]
  exact h1

theorem string_mk_data (s : String) : String.mk s.data = s := rfl

theorem spanScan_of_no_paren (keep : Bool) (l : List Char)
    (h : '(' ∉ l) : spanScan keep none l = l := by
  induction l with
  | nil => rfl
  | cons c cs ih =>
      have hc : c ≠ '(' := fun hc => h (hc ▸ List.mem_cons_self c cs)
      have hcs : '(' ∉ cs := fun hm => h (List.mem_cons_of_mem c hm)
      simp [spanScan, hc, ih hcs]

theorem getAlternatives_of_no_paren (s : String) (h : '(' ∉ s.data) :
    getAlternatives s = [s] := by
  have hmin : minimalVersion s = s := by
    rw [minimalVersion, spanScan_of_no_paren false s.data h, string_mk_data]
  have hmax : maximalVersion s = s := by
    rw [maximalVersion, spanScan_of_no_paren true s.data h, string_mk_data]
  rw [getAlternatives, hmin, hmax, if_pos rfl]

theorem validateCandidates_foldl (wp : WordPronunciation)
    (metadata : Metadata) (alternatives : List String)
    (acc : List String × List Issue) :
    alternatives.foldl (fun acc alternative =>
        match firstInvalidPhoneme metadata alternative with
        | some invalidPhoneme =>
            (acc.1,
              acc.2 ++ [Issue.invalidPhonemeInPronunciation wp invalidPhoneme
                metadata])
        | none => (acc.1 ++ [alternative], acc.2)) acc =
      (acc.1 ++ alternatives.filter
          (fun a => (firstInvalidPhoneme metadata a).isNone),
        acc.2 ++ alternatives.filterMap
          (fun a => (firstInvalidPhoneme metadata a).map
            (fun p => Issue.invalidPhonemeInPronunciation wp p metadata))) := by
  induction alternatives generalizing acc with
  | nil => simp
  | cons a rest ih =>
      cases h : firstInvalidPhoneme metadata a with
      | some p =>
          simp only [List.foldl_cons, h, ih, List.filter_cons,
            List.filterMap_cons, Option.isNone_some, Bool.false_eq_true,
            if_false, Option.map_some']
          simp [h]
      | none =>
          simp only [List.foldl_cons, h, ih, List.filter_cons,
            List.filterMap_cons, Option.isNone_none, if_true,
            Option.map_none']
          simp [h]

theorem validateCandidates_eq (wp : WordPronunciation) (metadata : Metadata)
    (alternatives : List String) :
    validateCandidates wp metadata alternatives =
      (alternatives.filter
          (fun a => (firstInvalidPhoneme metadata a).isNone),
        alternatives.filterMap
          (fun a => (firstInvalidPhoneme metadata a).map
            (fun p => Issue.invalidPhonemeInPronunciation wp p metadata))) := by
  rw [validateCandidates, validateCandidates_foldl]
  simp

theorem mem_data_stripDelimiters (s : String) (c : Char)
    (h : c ∈ (stripDelimiters s).data) : c ∈ s.data := by
  rw [stripDelimiters] at h
  by_cases h1 : (s.data.head? = some '/' ∧ s.data.getLast? = some '/') ∨
      (s.data.head? = some '[' ∧ s.data.getLast? = some ']')
  · rw [if_pos h1] at h
    by_cases h2 : s.data.length ≤ 1
    · rwa [if_pos h2] at h
    · rw [if_neg h2] at h
      exact List.mem_of_mem_drop (List.dropLast_subset _ h)
  · rwa [if_neg h1] at h

theorem filter_self_idem (p : α → Bool) (l : List α) :
    (l.filter p).filter p = l.filter p := by
  induction l with
  | nil => rfl
  | cons a rest ih =>
      by_cases h : p a = true
      · simp [List.filter_cons, h, ih]
      · simp [List.filter_cons, h, ih]

/-- C8: the Character Statistics Analyzer applied to an empty character
sequence returns an empty character list and an empty frequency mapping;
the counting loop, the sort and both result maps are empty, so no
division `count / 0` is ever formed and nothing is raised. -/
theorem c8_getCharacterStats_empty :
    getCharacterStats [] = { characters := [], frequencies := [] } := rfl

/-- C10: for every language of the fixed unsupported list (Latin,
Japanese, Chinese, Korean) and every input collection, `createDictionary`
returns null at once: no dictionary, no metadata resolution and no logged
issue. -/
theorem c10_unsupported_language_yields_null
    (getName : String → Option String)
    (languageLe englishLe : String → String → Bool) (language : String)
    (wordPronunciations : List WordPronunciation)
    (h : language ∈ unsupportedLanguages) :
    createDictionary getName languageLe englishLe language
      wordPronunciations = (none, []) := by
  have hc : unsupportedLanguages.contains language = true := by
    simpa [List.contains, List.elem_iff] using h
  rw [createDictionary, if_pos hc]

/-- C10 witness: Latin with an empty input collection. -/
theorem c10_witness :
    createDictionary (fun _ => none) (fun _ _ => true) (fun _ _ => true)
      "la" [] = (none, []) :=
  c10_unsupported_language_yields_null (fun _ => none) (fun _ _ => true)
    (fun _ _ => true) "la" [] (by decide)

/-- C5: `getAlternatives` returns the minimal variant (every non-greedy
parenthesized span deleted with its parentheses) and the maximal variant
(every such span replaced by its inner content); one string when the
variants coincide, else exactly the two with the minimal variant first;
the input "ab(c)d" yields exactly ["abd", "abcd"], and an input without
parenthesized spans yields exactly itself. -/
theorem c5_getAlternatives_minimal_maximal :
    (∀ s : String, getAlternatives s =
        if minimalVersion s = maximalVersion s then [minimalVersion s]
        else [minimalVersion s, maximalVersion s])
      ∧ getAlternatives "ab(c)d" = ["abd", "abcd"]
      ∧ ∀ s : String, '(' ∉ s.data → getAlternatives s = [s] :=
  ⟨fun _ => rfl, by decide, getAlternatives_of_no_paren⟩

/-- C5 witness: a concrete parenthesis-free input, through the third
conjunct. -/
theorem c5_witness :
    ('(' ∉ ("xd" : String).data) ∧ getAlternatives "xd" = ["xd"] :=
  ⟨by decide, c5_getAlternatives_minimal_maximal.2.2 "xd" (by decide)⟩

/-- C7: pronunciation candidates are validated independently: the
normalized result is exactly the candidates with no invalid phoneme, in
their original order, and one issue naming the first offending symbol is
logged per rejected candidate, in candidate order, each sibling being
evaluated regardless of the others. -/
theorem c7_candidates_validated_independently (nonEssential : Char → Bool)
    (wp : WordPronunciation) (metadata : Metadata) :
    (normalizePronunciation nonEssential wp metadata).1 =
        (pronunciationCandidates nonEssential wp metadata).filter
          (fun a => (firstInvalidPhoneme metadata a).isNone)
      ∧ (normalizePronunciation nonEssential wp metadata).2 =
        (pronunciationCandidates nonEssential wp metadata).filterMap
          (fun a => (firstInvalidPhoneme metadata a).map
            (fun p => Issue.invalidPhonemeInPronunciation wp p metadata)) := by
  rw [normalizePronunciation, validateCandidates_eq]
  exact ⟨rfl, rfl⟩

/-- C1 evaluation at the failing input: `createDictionary` of the source
never invokes the normalizer, so the raw pair ("Run", "/ron/") is inserted
as-is and the data map keys the raw word "Run" with the raw pronunciation
"/ron/"; the normalizer applied to the same pair (with a matching
metadata and ASCII lowercasing for `toLocaleLowerCase`) would instead
produce the record ("run", "ron"), so neither output string equals its
own normalization. -/
theorem c1_createDictionary_inserts_raw_pairs :
    ((createDictionary (fun _ => none) stringCodePointLe
        stringCodePointLe "xx"
        [{ sourceEdition := "e", language := "xx", word := "Run",
           pronunciation := "/ron/" }]).1.map Dictionary.data) =
      some [("Run", ["/ron/"])]
    ∧ (normalizeWordPronunciation
        (fun s => String.mk (s.data.map Char.toLower)) (fun _ => false)
        { sourceEdition := "e", language := "xx", word := "Run",
          pronunciation := "/ron/" }
        { language := "xx", description := "xx",
          graphemes := ['r', 'u', 'n'], phonemes := ['r', 'o', 'n'],
          graphemeReplacements := [], phonemeReplacements := [] }).1 =
      [{ sourceEdition := "e", language := "xx", word := "run",
         pronunciation := "ron" }] := by
  constructor
  · decide
  · decide

/-- C2 evaluation at the failing input: the source pushes pronunciations
onto a plain array per word, with no set and no deduplication, so two
identical raw pairs produce a data map whose single word carries the same
pronunciation twice. -/
theorem c2_duplicate_pronunciations_kept :
    ((createDictionary (fun _ => none) stringCodePointLe
        stringCodePointLe "xx"
        [{ sourceEdition := "e", language := "xx", word := "run",
           pronunciation := "a" },
         { sourceEdition := "e", language := "xx", word := "run",
           pronunciation := "a" }]).1.map Dictionary.data) =
      some [("run", ["a", "a"])] := by
  decide

/-- C6: when, after lowercasing and the grapheme replacements, the word
holds a character outside `metadata.graphemes`, `normalizeWord` returns
null and logs exactly one `InvalidGraphemeInWordIssue` carrying the raw
pair, the partially normalized word, the first offending grapheme and the
metadata, and `normalizeWordPronunciation` returns zero normalized records
with that same single issue. -/
theorem c6_invalid_grapheme_rejects_word (lower : String → String)
    (nonEssential : Char → Bool) (wp : WordPronunciation)
    (metadata : Metadata) (g : Char)
    (h : (applyReplacements metadata.graphemeReplacements
        (lower wp.word)).data.find?
        (fun c => !(metadata.graphemes.contains c)) = some g) :
    normalizeWord lower wp metadata =
        (none, [Issue.invalidGraphemeInWord wp
          (applyReplacements metadata.graphemeReplacements (lower wp.word))
          g metadata])
      ∧ normalizeWordPronunciation lower nonEssential wp metadata =
        ([], [Issue.invalidGraphemeInWord wp
          (applyReplacements metadata.graphemeReplacements (lower wp.word))
          g metadata]) := by
  have h1 : normalizeWord lower wp metadata =
      (none, [Issue.invalidGraphemeInWord wp
        (applyReplacements metadata.graphemeReplacements (lower wp.word))
        g metadata]) := by
    simp only [normalizeWord, h]
  exact ⟨h1, by simp only [normalizeWordPronunciation, h1]⟩

/-- C6 witness: the word "ro2bot" of the spec against a metadata alphabet
lacking "2" produces zero records and exactly one issue naming the
grapheme "2" (identity lowercasing: the word is already lowercase). -/
theorem c6_witness :
    normalizeWordPronunciation (fun s => s) (fun _ => false)
      { sourceEdition := "e", language := "en", word := "ro2bot",
        pronunciation := "x" }
      { language := "en", description := "English",
        graphemes := ['r', 'o', 'b', 't'], phonemes := ['x'],
        graphemeReplacements := [], phonemeReplacements := [] } =
      ([], [Issue.invalidGraphemeInWord
        { sourceEdition := "e", language := "en", word := "ro2bot",
          pronunciation := "x" }
        "ro2bot" '2'
        { language := "en", description := "English",
          graphemes := ['r', 'o', 'b', 't'], phonemes := ['x'],
          graphemeReplacements := [], phonemeReplacements := [] }]) :=
  (c6_invalid_grapheme_rejects_word (fun s => s) (fun _ => false)
    { sourceEdition := "e", language := "en", word := "ro2bot",
      pronunciation := "x" }
    { language := "en", description := "English",
      graphemes := ['r', 'o', 'b', 't'], phonemes := ['x'],
      graphemeReplacements := [], phonemeReplacements := [] }
    '2' (by decide)).2

/-- C3 counterexample: with raw words "A" and "a" (equal up to case), the
source feeds the characters of both to the analyzer, yielding the grapheme
list ['A', 'a'], while the claimed case-folded deduplication (here with
ASCII lowercasing, which is what language-aware lowercasing does on these
inputs) would feed only "a" and yield ['a']. -/
theorem c3_counterexample :
    (generateDummyMetadataAndFrequencies (fun _ => none) "xx"
        [{ sourceEdition := "e", language := "xx", word := "A",
           pronunciation := "p" },
         { sourceEdition := "e", language := "xx", word := "a",
           pronunciation := "p" }]).1.graphemes = ['A', 'a']
      ∧ (getCharacterStats (claimedGraphemeSource
          (fun s => String.mk (s.data.map Char.toLower))
          [{ sourceEdition := "e", language := "xx", word := "A",
             pronunciation := "p" },
           { sourceEdition := "e", language := "xx", word := "a",
             pronunciation := "p" }])).characters = ['a']
      ∧ (['A', 'a'] : List Char) ≠ ['a'] := by
  refine ⟨by decide, by decide, by decide⟩

/-- C3 (amended): the synthesized graphemes and grapheme distribution are
computed from the characters of the set of distinct raw words,
deduplicated by exact string equality without case folding: appending a
pair whose word already occurs changes neither the grapheme list nor the
grapheme distribution, and a character is a synthesized grapheme exactly
when it occurs in some raw word. -/
theorem c3_graphemes_from_distinct_raw_words
    (getName : String → Option String) (language : String)
    (wordPronunciations : List WordPronunciation)
    (wp : WordPronunciation)
    (h : wp.word ∈ wordPronunciations.map (fun u => u.word)) :
    ((generateDummyMetadataAndFrequencies getName language
          (wordPronunciations ++ [wp])).1.graphemes =
        (generateDummyMetadataAndFrequencies getName language
          wordPronunciations).1.graphemes
      ∧ (generateDummyMetadataAndFrequencies getName language
          (wordPronunciations ++ [wp])).2.graphemeFrequencies =
        (generateDummyMetadataAndFrequencies getName language
          wordPronunciations).2.graphemeFrequencies)
      ∧ ∀ c : Char,
        c ∈ (generateDummyMetadataAndFrequencies getName language
          wordPronunciations).1.graphemes ↔
        ∃ u ∈ wordPronunciations, c ∈ u.word.data := by
  have hset : jsSetList ((wordPronunciations ++ [wp]).map
      (fun u => u.word)) =
      jsSetList (wordPronunciations.map (fun u => u.word)) := by
    rw [List.map_append, List.map_singleton]
    exact jsSetList_concat_self _ _ h
  refine ⟨⟨?_, ?_⟩, ?_⟩
  · simp only [generateDummyMetadataAndFrequencies, hset]
  · simp only [generateDummyMetadataAndFrequencies, hset]
  · intro c
    simp only [generateDummyMetadataAndFrequencies]
    rw [mem_getCharacterStats, List.mem_flatMap]
    constructor
    · rintro ⟨w, hw, hcw⟩
      rw [mem_jsSetList, List.mem_map] at hw
      obtain ⟨u, hu, rfl⟩ := hw
      exact ⟨u, hu, hcw⟩
    · rintro ⟨u, hu, hc⟩
      exact ⟨u.word,
        (mem_jsSetList _ _).mpr (List.mem_map_of_mem _ hu), hc⟩

/-- C3 witness: a duplicated word "cat"; its second occurrence leaves the
synthesized grapheme list unchanged. -/
theorem c3_witness :
    (generateDummyMetadataAndFrequencies (fun _ => none) "xx"
        ([{ sourceEdition := "e", language := "xx", word := "cat",
            pronunciation := "k" }] ++
          [{ sourceEdition := "f", language := "xx", word := "cat",
             pronunciation := "kat" }])).1.graphemes =
      (generateDummyMetadataAndFrequencies (fun _ => none) "xx"
        [{ sourceEdition := "e", language := "xx", word := "cat",
           pronunciation := "k" }]).1.graphemes :=
  (c3_graphemes_from_distinct_raw_words (fun _ => none) "xx"
    [{ sourceEdition := "e", language := "xx", word := "cat",
       pronunciation := "k" }]
    { sourceEdition := "f", language := "xx", word := "cat",
      pronunciation := "kat" } (by decide)).1.1

/-- C4 counterexample: the pronunciation "/a/" keeps its delimiters in the
synthesized phoneme alphabet: the slash, a source punctuation mark outside
the reference phonetic-symbol inventory, is the most frequent character
and heads the phonemes list, so an out-of-inventory symbol appears there
(no filtering happens in the source). -/
theorem c4_counterexample :
    (generateDummyMetadataAndFrequencies (fun _ => none) "xx"
        [{ sourceEdition := "e", language := "xx", word := "a",
           pronunciation := "/a/" }]).1.phonemes = ['/', 'a']
      ∧ referencePhoneticInventoryContains '/' = false := by
  refine ⟨by decide, by decide⟩

/-- C4 (amended): the synthesized phonemes are computed from the
characters of every raw pronunciation, not deduplicated and with no
inventory filtering: a character is a synthesized phoneme exactly when it
occurs in some raw pronunciation, whether or not the reference inventory
holds it. -/
theorem c4_phonemes_from_raw_pronunciations
    (getName : String → Option String) (language : String)
    (wordPronunciations : List WordPronunciation) (c : Char) :
    c ∈ (generateDummyMetadataAndFrequencies getName language
        wordPronunciations).1.phonemes ↔
      ∃ u ∈ wordPronunciations, c ∈ u.pronunciation.data := by
  simp only [generateDummyMetadataAndFrequencies]
  rw [mem_getCharacterStats, List.mem_flatMap]

theorem applyReplacements_nil (s : String) : applyReplacements [] s = s :=
  rfl

/-- C9 counterexample: the raw pair ("w", "//x//") satisfies the claim
hypotheses (word characters among the graphemes, pronunciation characters
among the phonemes, empty replacement tables, no parentheses; lowercasing
is the identity on these ASCII-lowercase strings and no symbol is
non-essential), yet normalization is not idempotent: one delimiter layer
is stripped per pass, so the first pass yields the record with
pronunciation "/x/" and renormalizing that record strips again and yields
"x". -/
theorem c9_counterexample :
    ((∀ c ∈ ("w" : String).data, c ∈ ['w'])
        ∧ (∀ c ∈ ("//x//" : String).data, c ∈ ['/', 'x'])
        ∧ '(' ∉ ("//x//" : String).data ∧ ')' ∉ ("//x//" : String).data)
      ∧ normalizeWordPronunciation (fun s => s) (fun _ => false)
          { sourceEdition := "e", language := "xx", word := "w",
            pronunciation := "//x//" }
          { language := "xx", description := "xx", graphemes := ['w'],
            phonemes := ['/', 'x'], graphemeReplacements := [],
            phonemeReplacements := [] } =
        ([{ sourceEdition := "e", language := "xx", word := "w",
            pronunciation := "/x/" }], [])
      ∧ normalizeWordPronunciation (fun s => s) (fun _ => false)
          { sourceEdition := "e", language := "xx", word := "w",
            pronunciation := "/x/" }
          { language := "xx", description := "xx", graphemes := ['w'],
            phonemes := ['/', 'x'], graphemeReplacements := [],
            phonemeReplacements := [] } =
        ([{ sourceEdition := "e", language := "xx", word := "w",
            pronunciation := "x" }], [])
      ∧ ({ sourceEdition := "e", language := "xx", word := "w",
           pronunciation := "/x/" } : WordPronunciation) ≠
        { sourceEdition := "e", language := "xx", word := "w",
          pronunciation := "x" } := by
  refine ⟨⟨by decide, by decide, by decide, by decide⟩, by decide, by decide,
    by decide⟩

/-- C9 (amended): for a raw pair whose lowercased word is a fixed point of
lowercasing and consists solely of graphemes of the metadata, whose
pronunciation consists solely of phonemes of the metadata and contains no
parentheses, under empty replacement tables, and whose once-normalized
pronunciation (delimiters stripped, non-essential symbols dropped) does
not itself carry a surrounding delimiter pair, normalization is
idempotent: `normalizeWordPronunciation` yields exactly one record with
no issue, and normalizing that record again yields the same single record
with no issue. -/
theorem c9_normalization_idempotent_on_clean_input
    (lower : String → String) (nonEssential : Char → Bool)
    (wp : WordPronunciation) (metadata : Metadata) (p1 : String)
    (r : WordPronunciation)
    (hgr : metadata.graphemeReplacements = [])
    (hpr : metadata.phonemeReplacements = [])
    (hword : ∀ c ∈ (lower wp.word).data, c ∈ metadata.graphemes)
    (hlower : lower (lower wp.word) = lower wp.word)
    (hpron : ∀ c ∈ wp.pronunciation.data, c ∈ metadata.phonemes)
    (hnoparen : '(' ∉ wp.pronunciation.data)
    (hp1 : p1 = String.mk ((stripDelimiters wp.pronunciation).data.filter
      (fun c => !nonEssential c)))
    (hnostrip : stripDelimiters p1 = p1)
    (hr : r = { sourceEdition := wp.sourceEdition,
                language := wp.language,
                word := lower wp.word,
                pronunciation := p1 }) :
    normalizeWordPronunciation lower nonEssential wp metadata = ([r], [])
      ∧ normalizeWordPronunciation lower nonEssential r metadata =
        ([r], []) := by
  have hd : p1.data = (stripDelimiters wp.pronunciation).data.filter
      (fun c => !nonEssential c) := by rw [hp1]
  have hsub : ∀ c ∈ p1.data, c ∈ wp.pronunciation.data := by
    intro c hc
    rw [hd] at hc
    exact mem_data_stripDelimiters _ _ (List.mem_filter.mp hc).1
  have hnop1 : '(' ∉ p1.data := fun hmem => hnoparen (hsub _ hmem)
  have f2 : (lower wp.word).data.find?
      (fun g => !(metadata.graphemes.contains g)) = none := by
    apply List.find?_eq_none.mpr
    intro x hx
    simp
    exact hword x hx
  have f3 : normalizeWord lower wp metadata = (some (lower wp.word), []) := by
    have e1 : applyReplacements metadata.graphemeReplacements
        (lower wp.word) = lower wp.word := by
      rw [hgr, applyReplacements_nil]
    simp only [normalizeWord, e1, f2]
  have f8 : firstInvalidPhoneme metadata p1 = none := by
    rw [firstInvalidPhoneme]
    apply List.find?_eq_none.mpr
    intro x hx
    simp
    exact hpron x (hsub x hx)
  have f7 : pronunciationCandidates nonEssential wp metadata = [p1] := by
    simp only [pronunciationCandidates]
    rw [← hp1, hpr, applyReplacements_nil]
    exact getAlternatives_of_no_paren p1 hnop1
  have f9 : normalizePronunciation nonEssential wp metadata = ([p1], []) := by
    rw [normalizePronunciation, f7, validateCandidates_eq]
    simp [f8]
  have final1 : normalizeWordPronunciation lower nonEssential wp metadata =
      ([r], []) := by
    simp only [normalizeWordPronunciation, f3, f9]
    simp [hr]
  have hrw : r.word = lower wp.word := by rw [hr]
  have hrp : r.pronunciation = p1 := by rw [hr]
  have hrs : r.sourceEdition = wp.sourceEdition := by rw [hr]
  have hrl : r.language = wp.language := by rw [hr]
  have g2 : normalizeWord lower r metadata = (some (lower wp.word), []) := by
    have e1 : applyReplacements metadata.graphemeReplacements
        (lower r.word) = lower wp.word := by
      rw [hgr, applyReplacements_nil, hrw, hlower]
    simp only [normalizeWord, e1, f2]
  have hfilter : String.mk (p1.data.filter (fun c => !nonEssential c)) =
      p1 := by
    calc String.mk (p1.data.filter (fun c => !nonEssential c)) =
        String.mk (((stripDelimiters wp.pronunciation).data.filter
          (fun c => !nonEssential c)).filter (fun c => !nonEssential c)) := by
          rw [hd]
      _ = String.mk ((stripDelimiters wp.pronunciation).data.filter
          (fun c => !nonEssential c)) := by rw [filter_self_idem]
      _ = p1 := hp1.symm
  have cand2 : pronunciationCandidates nonEssential r metadata = [p1] := by
    simp only [pronunciationCandidates, hrp, hnostrip, hfilter]
    rw [hpr, applyReplacements_nil]
    exact getAlternatives_of_no_paren p1 hnop1
  have g9 : normalizePronunciation nonEssential r metadata = ([p1], []) := by
    rw [normalizePronunciation, cand2, validateCandidates_eq]
    simp [f8]
  have final2 : normalizeWordPronunciation lower nonEssential r metadata =
      ([r], []) := by
    simp only [normalizeWordPronunciation, g2, g9]
    simp [hr, hrs, hrl]
  exact ⟨final1, final2⟩

/-- C9 witness: the already-normalized pair ("run", "run") under a
matching metadata; one record is produced and it renormalizes to
itself. -/
theorem c9_witness :
    normalizeWordPronunciation (fun s => s) (fun _ => false)
      { sourceEdition := "e", language := "xx", word := "run",
        pronunciation := "run" }
      { language := "xx", description := "xx",
        graphemes := ['r', 'u', 'n'], phonemes := ['r', 'u', 'n'],
        graphemeReplacements := [], phonemeReplacements := [] } =
      ([{ sourceEdition := "e", language := "xx", word := "run",
          pronunciation := "run" }], []) :=
  (c9_normalization_idempotent_on_clean_input (fun s => s) (fun _ => false)
    { sourceEdition := "e", language := "xx", word := "run",
      pronunciation := "run" }
    { language := "xx", description := "xx",
      graphemes := ['r', 'u', 'n'], phonemes := ['r', 'u', 'n'],
      graphemeReplacements := [], phonemeReplacements := [] }
    "run"
    { sourceEdition := "e", language := "xx", word := "run",
      pronunciation := "run" }
    rfl rfl (by decide) rfl (by decide) (by decide) (by decide) (by decide)
    rfl).1
